import Mathlib

/-!
Verification development for the cyberspace coordinate / movement core.

Shallow embedding of the Python sources:
- `src/cyberspace_core/coords.py`   (bit-interleaved coordinates, longitude wrap)
- `src/cyberspace_core/cantor.py`   (Cantor pairing, minimal big-endian bytes, SHA-256 helpers)
- `src/cyberspace_core/movement.py` (LCA height, subtree Cantor roots, movement proofs)
- `src/cyberspace_cli/toward.py`    (bounded-cost per-axis stepping)
- `src/cyberspace_cli/cli.py`       (toward-walk orchestration, boundary escape)
- `src/cyberspace_cli/chains.py`    (append-only chain log)
- `src/cyberspace_cli/parsing.py`   (coordinate hex normalization)

Python unbounded non-negative integers are modelled as `Nat`; values that can
be negative in Python (Cantor pairing operands, the interleave plane argument)
are modelled as `Int` with Python's two's-complement bitwise semantics
(`Int.land`) and floor division (`Int.fdiv`).
-/

set_option maxRecDepth 40000

/-! ### Coordinate codec (`coords.py`) -/

/-- `AXIS_BITS = 85` from `coords.py`. -/
def AXIS_BITS : Nat := 85

/-- `AXIS_UNITS = 1 << AXIS_BITS` from `coords.py`. -/
def AXIS_UNITS : Nat := 1 <<< AXIS_BITS

/-- `AXIS_MAX = AXIS_UNITS - 1` from `coords.py`. -/
def AXIS_MAX : Nat := AXIS_UNITS - 1

/-- One iteration of the interleaving loop body in `xyz_to_coord`:
`coord |= ((z >> i) & 1) << (1 + i*3); ... << (2 + i*3); ... << (3 + i*3)`. -/
def interleave_step (x y z : Nat) (coord : Nat) (i : Nat) : Nat :=
  ((coord ||| (((z >>> i) &&& 1) <<< (1 + i * 3))) |||
    (((y >>> i) &&& 1) <<< (2 + i * 3))) |||
    (((x >>> i) &&& 1) <<< (3 + i * 3))

/-- `xyz_to_coord(x, y, z, plane)` from `coords.py`: the accumulator starts at
`plane & 1` (Python bitwise and, two's complement on negatives, hence
`Int.land`) and the loop runs for `i in range(AXIS_BITS)`. -/
def xyz_to_coord (x y z : Nat) (plane : Int) : Nat :=
  (List.range AXIS_BITS).foldl (interleave_step x y z) (Int.land plane 1).toNat

/-- One iteration of the extraction loop in `coord_to_xyz` for the axis at bit
offset `off` (`3` for x, `2` for y, `1` for z):
`axis |= ((coord >> (off + i*3)) & 1) << i`. -/
def deinterleave_step (coord off : Nat) (acc : Nat) (i : Nat) : Nat :=
  acc ||| (((coord >>> (off + i * 3)) &&& 1) <<< i)

/-- `coord_to_xyz(coord)` from `coords.py`, returning `(x, y, z, plane)`. -/
def coord_to_xyz (coord : Nat) : Nat × Nat × Nat × Nat :=
  ((List.range AXIS_BITS).foldl (deinterleave_step coord 3) 0,
   (List.range AXIS_BITS).foldl (deinterleave_step coord 2) 0,
   (List.range AXIS_BITS).foldl (deinterleave_step coord 1) 0,
   coord &&& 1)

/-! #### Bit-level characterization of the codec -/

lemma one_testBit (j : Nat) : (1 : Nat).testBit j = decide (0 = j) := by
  have h : (1 : Nat) = 2 ^ 0 := rfl
  rw [h, Nat.testBit_two_pow]

/-- A single selected-and-shifted bit: `((v >> i) & 1) << m` has exactly one
potential set bit, at position `m`, present iff bit `i` of `v` is set. -/
lemma bitsel_testBit (v i m k : Nat) :
    ((((v >>> i) &&& 1) <<< m).testBit k = true) ↔ (k = m ∧ v.testBit i = true) := by
  rw [Nat.testBit_shiftLeft, Nat.testBit_and, Nat.testBit_shiftRight, one_testBit]
  simp only [Bool.and_eq_true, decide_eq_true_eq]
  constructor
  · rintro ⟨hmk, hv, h0⟩
    have hk : k = m := by omega
    have hi : i + (k - m) = i := by omega
    rw [hi] at hv
    exact ⟨hk, hv⟩
  · rintro ⟨hkm, hv⟩
    refine ⟨by omega, ?_, by omega⟩
    have hi : i + (k - m) = i := by omega
    rw [hi]
    exact hv

/-- The interleave loop up to `n` iterations. -/
def interleave_fold (x y z acc n : Nat) : Nat :=
  (List.range n).foldl (interleave_step x y z) acc

lemma interleave_fold_succ (x y z acc n : Nat) :
    interleave_fold x y z acc (n + 1) =
      interleave_step x y z (interleave_fold x y z acc n) n := by
  unfold interleave_fold
  rw [List.range_succ, List.foldl_append]
  rfl

lemma interleave_fold_testBit (x y z acc n k : Nat) :
    ((interleave_fold x y z acc n).testBit k = true) ↔
      (acc.testBit k = true ∨ ∃ i, i < n ∧
        ((k = 1 + i * 3 ∧ z.testBit i = true) ∨
         (k = 2 + i * 3 ∧ y.testBit i = true) ∨
         (k = 3 + i * 3 ∧ x.testBit i = true))) := by
  induction n with
  | zero =>
    simp [interleave_fold]
  | succ n ih =>
    rw [interleave_fold_succ]
    unfold interleave_step
    simp only [Nat.testBit_or, Bool.or_eq_true, bitsel_testBit, ih]
    constructor
    · rintro ((((h | ⟨i, hi, hc⟩) | hz) | hy) | hx)
      · exact Or.inl h
      · exact Or.inr ⟨i, by omega, hc⟩
      · exact Or.inr ⟨n, by omega, Or.inl hz⟩
      · exact Or.inr ⟨n, by omega, Or.inr (Or.inl hy)⟩
      · exact Or.inr ⟨n, by omega, Or.inr (Or.inr hx)⟩
    · rintro (h | ⟨i, hi, hc⟩)
      · exact Or.inl (Or.inl (Or.inl (Or.inl h)))
      · rcases Nat.lt_succ_iff_lt_or_eq.mp hi with hlt | rfl
        · exact Or.inl (Or.inl (Or.inl (Or.inr ⟨i, hlt, hc⟩)))
        · rcases hc with h1 | h2 | h3
          · exact Or.inl (Or.inl (Or.inr h1))
          · exact Or.inl (Or.inr h2)
          · exact Or.inr h3

/-- The deinterleave loop up to `n` iterations. -/
def deinterleave_fold (coord off n : Nat) : Nat :=
  (List.range n).foldl (deinterleave_step coord off) 0

lemma deinterleave_fold_succ (coord off n : Nat) :
    deinterleave_fold coord off (n + 1) =
      deinterleave_step coord off (deinterleave_fold coord off n) n := by
  unfold deinterleave_fold
  rw [List.range_succ, List.foldl_append]
  rfl

lemma deinterleave_fold_testBit (coord off n j : Nat) :
    ((deinterleave_fold coord off n).testBit j = true) ↔
      (j < n ∧ coord.testBit (off + j * 3) = true) := by
  induction n with
  | zero =>
    simp [deinterleave_fold]
  | succ n ih =>
    rw [deinterleave_fold_succ]
    unfold deinterleave_step
    simp only [Nat.testBit_or, Bool.or_eq_true, ih, bitsel_testBit]
    constructor
    · rintro (⟨hj, hc⟩ | ⟨rfl, hc⟩)
      · exact ⟨by omega, hc⟩
      · exact ⟨by omega, hc⟩
    · rintro ⟨hj, hc⟩
      rcases Nat.lt_succ_iff_lt_or_eq.mp hj with hlt | rfl
      · exact Or.inl ⟨hlt, hc⟩
      · exact Or.inr ⟨rfl, hc⟩

/-! #### Plane bit lemmas -/

lemma nat_ldiff_one (n : Nat) : Nat.ldiff 1 n = 1 - n % 2 := by
  apply Nat.eq_of_testBit_eq
  intro i
  rw [Nat.testBit_ldiff]
  cases i with
  | zero =>
    rcases Nat.mod_two_eq_zero_or_one n with h | h <;>
      simp [Nat.testBit_zero, h]
  | succ i =>
    have h1 : (1 : Nat).testBit (i + 1) = false := by
      rw [one_testBit]
      simp
    have h2 : (1 - n % 2).testBit (i + 1) = false := by
      apply Nat.testBit_lt_two_pow
      have : 1 - n % 2 ≤ 1 := by omega
      calc 1 - n % 2 ≤ 1 := this
        _ < 2 ^ (i + 1) := by
          have := Nat.one_lt_two_pow_iff (n := i + 1)
          omega
    rw [h1, h2]
    simp

lemma int_land_one_eq_emod (p : Int) : Int.land p 1 = p % 2 := by
  cases p with
  | ofNat n =>
    show Int.land (Int.ofNat n) (Int.ofNat 1) = _
    rw [Int.land]
    rw [Nat.and_one_is_mod]
    rw [show Int.ofNat n = (n : ℤ) from rfl]
    omega
  | negSucc n =>
    show Int.land (Int.negSucc n) (Int.ofNat 1) = _
    rw [Int.land]
    rw [nat_ldiff_one]
    rw [Int.negSucc_eq]
    omega

lemma int_land_one_cases (p : Int) : Int.land p 1 = 0 ∨ Int.land p 1 = 1 := by
  rw [int_land_one_eq_emod]
  omega

lemma testBit_le_one {a : Nat} (ha : a ≤ 1) (k : Nat) :
    (a.testBit k = true) ↔ (k = 0 ∧ a = 1) := by
  interval_cases a
  · simp
  · rw [one_testBit]
    simp [eq_comm]

/-- Bit-level description of `xyz_to_coord`: bit 0 is the (masked) plane bit and
bit `1 + 3i` / `2 + 3i` / `3 + 3i` is bit `i` of z / y / x respectively. -/
lemma xyz_to_coord_testBit (x y z : Nat) (p : Int) (k : Nat) :
    ((xyz_to_coord x y z p).testBit k = true) ↔
      ((k = 0 ∧ (Int.land p 1).toNat = 1) ∨ ∃ i, i < AXIS_BITS ∧
        ((k = 1 + i * 3 ∧ z.testBit i = true) ∨
         (k = 2 + i * 3 ∧ y.testBit i = true) ∨
         (k = 3 + i * 3 ∧ x.testBit i = true))) := by
  have hacc : (Int.land p 1).toNat ≤ 1 := by
    rcases int_land_one_cases p with h | h <;> rw [h] <;> decide
  show ((interleave_fold x y z (Int.land p 1).toNat AXIS_BITS).testBit k = true) ↔ _
  rw [interleave_fold_testBit, testBit_le_one hacc]

lemma axis_max_eq : AXIS_MAX = 2 ^ 85 - 1 := by decide

lemma testBit_lt_axis {v j : Nat} (hv : v ≤ AXIS_MAX) (hb : v.testBit j = true) :
    j < 85 := by
  by_contra hj
  have h85 : (2 : Nat) ^ 85 ≤ 2 ^ j := Nat.pow_le_pow_right (by omega) (by omega)
  have hvj : v < 2 ^ j := by
    rw [axis_max_eq] at hv
    have : (0 : Nat) < 2 ^ 85 := Nat.pos_pow_of_pos 85 (by omega)
    omega
  rw [Nat.testBit_lt_two_pow hvj] at hb
  exact Bool.false_ne_true hb

/-- Claim C1: decoding the interleaved coordinate returns the inputs exactly,
for axis values in `[0, 2^85 - 1]` and plane bit in `{0, 1}`. -/
theorem claim_C1_roundtrip (x y z : Nat) (p : Int)
    (hx : x ≤ AXIS_MAX) (hy : y ≤ AXIS_MAX) (hz : z ≤ AXIS_MAX)
    (hp : p = 0 ∨ p = 1) :
    coord_to_xyz (xyz_to_coord x y z p) = (x, y, z, p.toNat) := by
  have decode_axis :
      ∀ off j, ((deinterleave_fold (xyz_to_coord x y z p) off AXIS_BITS).testBit j = true) ↔
        (j < AXIS_BITS ∧ (xyz_to_coord x y z p).testBit (off + j * 3) = true) :=
    fun off j => deinterleave_fold_testBit (xyz_to_coord x y z p) off AXIS_BITS j
  have hxc : deinterleave_fold (xyz_to_coord x y z p) 3 AXIS_BITS = x := by
    apply Nat.eq_of_testBit_eq
    intro j
    rw [Bool.eq_iff_iff, decode_axis 3 j, xyz_to_coord_testBit]
    constructor
    · rintro ⟨hj, (⟨h0, _⟩ | ⟨i, hi, (⟨he, _⟩ | ⟨he, _⟩ | ⟨he, hb⟩)⟩)⟩
      · omega
      · omega
      · omega
      · have hij : i = j := by omega
        rwa [hij] at hb
    · intro hb
      have hj := testBit_lt_axis hx hb
      exact ⟨hj, Or.inr ⟨j, hj, Or.inr (Or.inr ⟨rfl, hb⟩)⟩⟩
  have hyc : deinterleave_fold (xyz_to_coord x y z p) 2 AXIS_BITS = y := by
    apply Nat.eq_of_testBit_eq
    intro j
    rw [Bool.eq_iff_iff, decode_axis 2 j, xyz_to_coord_testBit]
    constructor
    · rintro ⟨hj, (⟨h0, _⟩ | ⟨i, hi, (⟨he, _⟩ | ⟨he, hb⟩ | ⟨he, _⟩)⟩)⟩
      · omega
      · omega
      · have hij : i = j := by omega
        rwa [hij] at hb
      · omega
    · intro hb
      have hj := testBit_lt_axis hy hb
      exact ⟨hj, Or.inr ⟨j, hj, Or.inr (Or.inl ⟨rfl, hb⟩)⟩⟩
  have hzc : deinterleave_fold (xyz_to_coord x y z p) 1 AXIS_BITS = z := by
    apply Nat.eq_of_testBit_eq
    intro j
    rw [Bool.eq_iff_iff, decode_axis 1 j, xyz_to_coord_testBit]
    constructor
    · rintro ⟨hj, (⟨h0, _⟩ | ⟨i, hi, (⟨he, hb⟩ | ⟨he, _⟩ | ⟨he, _⟩)⟩)⟩
      · omega
      · have hij : i = j := by omega
        rwa [hij] at hb
      · omega
      · omega
    · intro hb
      have hj := testBit_lt_axis hz hb
      exact ⟨hj, Or.inr ⟨j, hj, Or.inl ⟨rfl, hb⟩⟩⟩
  have hplane : (xyz_to_coord x y z p) &&& 1 = p.toNat := by
    rw [Nat.and_one_is_mod]
    rcases hp with rfl | rfl
    · have hacc : (Int.land (0 : ℤ) 1).toNat = 0 := by decide
      have hbit : (xyz_to_coord x y z 0).testBit 0 = false := by
        rw [← Bool.not_eq_true, xyz_to_coord_testBit]
        rintro (⟨_, h1⟩ | ⟨i, _, (⟨he, _⟩ | ⟨he, _⟩ | ⟨he, _⟩)⟩) <;> omega
      rw [Nat.testBit_zero, decide_eq_false_iff_not] at hbit
      omega
    · have hbit : (xyz_to_coord x y z 1).testBit 0 = true := by
        rw [xyz_to_coord_testBit]
        exact Or.inl ⟨rfl, by decide⟩
      rw [Nat.testBit_zero, decide_eq_true_eq] at hbit
      omega
  show (deinterleave_fold (xyz_to_coord x y z p) 3 AXIS_BITS,
        deinterleave_fold (xyz_to_coord x y z p) 2 AXIS_BITS,
        deinterleave_fold (xyz_to_coord x y z p) 1 AXIS_BITS,
        (xyz_to_coord x y z p) &&& 1) = (x, y, z, p.toNat)
  rw [hxc, hyc, hzc, hplane]

/-- Witness for C1 at `(x, y, z, p) = (100, 200, 300, 0)` (the spec's
interleave round-trip example). -/
theorem claim_C1_roundtrip_witness :
    (100 ≤ AXIS_MAX ∧ 200 ≤ AXIS_MAX ∧ 300 ≤ AXIS_MAX ∧ ((0 : ℤ) = 0 ∨ (0 : ℤ) = 1)) ∧
      coord_to_xyz (xyz_to_coord 100 200 300 0) = (100, 200, 300, (0 : ℤ).toNat) :=
  ⟨⟨by decide, by decide, by decide, Or.inl rfl⟩,
   claim_C1_roundtrip 100 200 300 0 (by decide) (by decide) (by decide) (Or.inl rfl)⟩

lemma mod_pow_testBit_iff (v i : Nat) (hi : i < 85) :
    ((v % 2 ^ 85).testBit i = true) ↔ (v.testBit i = true) := by
  rw [Nat.testBit_mod_two_pow]
  simp [hi]

/-- Claim C8: the encoder silently truncates; only the low 85 bits of each axis
and the low bit of the plane affect the interleaved coordinate. -/
theorem claim_C8_truncation (x y z : Nat) (p : Int) :
    xyz_to_coord x y z p =
      xyz_to_coord (x % 2 ^ 85) (y % 2 ^ 85) (z % 2 ^ 85) (p % 2) := by
  apply Nat.eq_of_testBit_eq
  intro k
  rw [Bool.eq_iff_iff, xyz_to_coord_testBit, xyz_to_coord_testBit]
  have hland : Int.land p 1 = Int.land (p % 2) 1 := by
    rw [int_land_one_eq_emod, int_land_one_eq_emod,
      Int.emod_emod_of_dvd p (dvd_refl 2)]
  rw [hland]
  constructor
  · rintro (h0 | ⟨i, hi, hc⟩)
    · exact Or.inl h0
    · refine Or.inr ⟨i, hi, ?_⟩
      have hi85 : i < 85 := hi
      rcases hc with ⟨he, hb⟩ | ⟨he, hb⟩ | ⟨he, hb⟩
      · exact Or.inl ⟨he, (mod_pow_testBit_iff z i hi85).mpr hb⟩
      · exact Or.inr (Or.inl ⟨he, (mod_pow_testBit_iff y i hi85).mpr hb⟩)
      · exact Or.inr (Or.inr ⟨he, (mod_pow_testBit_iff x i hi85).mpr hb⟩)
  · rintro (h0 | ⟨i, hi, hc⟩)
    · exact Or.inl h0
    · refine Or.inr ⟨i, hi, ?_⟩
      have hi85 : i < 85 := hi
      rcases hc with ⟨he, hb⟩ | ⟨he, hb⟩ | ⟨he, hb⟩
      · exact Or.inl ⟨he, (mod_pow_testBit_iff z i hi85).mp hb⟩
      · exact Or.inr (Or.inl ⟨he, (mod_pow_testBit_iff y i hi85).mp hb⟩)
      · exact Or.inr (Or.inr ⟨he, (mod_pow_testBit_iff x i hi85).mp hb⟩)

/-! ### Cantor pairing and hashing (`cantor.py`) -/

/-- `cantor_pair(a, b)` from `cantor.py`: `s = a + b; (s * (s + 1)) // 2 + b`.
Operands are Python ints (possibly negative); `//` is Python floor division,
hence `Int.fdiv`.  The function performs no sign check. -/
def cantor_pair (a b : ℤ) : ℤ := ((a + b) * (a + b + 1)).fdiv 2 + b

/-- `cantor_pair` restricted to the natural-number operands used by the
movement-proof pipeline (all values there are non-negative). -/
def cantor_pairN (a b : Nat) : Nat := (a + b) * (a + b + 1) / 2 + b

lemma cantor_pair_coe (a b : Nat) : cantor_pair a b = cantor_pairN a b := by
  unfold cantor_pair cantor_pairN
  obtain ⟨t, ht⟩ := Nat.even_mul_succ_self (a + b)
  have hq : (a + b) * (a + b + 1) / 2 = t := by omega
  have h1 : (a + b) * (a + b + 1) = 2 * t := by omega
  have hz : ((a : ℤ) + b) * ((a : ℤ) + b + 1) = 2 * t := by
    calc ((a : ℤ) + b) * ((a : ℤ) + b + 1)
        = (((a + b) * (a + b + 1) : ℕ) : ℤ) := by push_cast; ring
      _ = (((2 * t : ℕ) : ℕ) : ℤ) := by exact_mod_cast h1
      _ = 2 * t := by push_cast; ring
  rw [hz, Int.mul_fdiv_cancel_left _ (by omega), hq]
  push_cast
  ring

/-- Python `int.bit_length`, via explicit fuel so that the kernel can
evaluate it (the fuel argument only bounds the recursion depth). -/
def bit_length_aux : Nat → Nat → Nat
  | 0, _ => 0
  | fuel + 1, n => if n = 0 then 0 else bit_length_aux fuel (n / 2) + 1

/-- Python `n.bit_length()` for `n : Nat`. -/
def bit_length (n : Nat) : Nat := bit_length_aux n n

lemma bit_length_aux_lt : ∀ fuel n, n ≤ fuel → n < 2 ^ bit_length_aux fuel n := by
  intro fuel
  induction fuel with
  | zero =>
    intro n hn
    interval_cases n
    decide
  | succ fuel ih =>
    intro n hn
    by_cases h0 : n = 0
    · subst h0
      simp [bit_length_aux]
    · have hrec := ih (n / 2) (by omega)
      unfold bit_length_aux
      rw [if_neg h0, pow_succ]
      omega

/-- Any natural number is below `2 ^ bit_length`. -/
lemma lt_two_pow_bit_length (n : Nat) : n < 2 ^ bit_length n :=
  bit_length_aux_lt n n le_rfl

/-- Python `n.to_bytes(len, "big")`: the low `8 * len` bits, big-endian. -/
def to_bytes_be (len n : Nat) : List Nat :=
  (List.range len).map (fun i => (n >>> (8 * (len - 1 - i))) % 256)

/-- `int_to_bytes_be_min` from `cantor.py` (callers only pass non-negative
values; the Python negative-input guard is outside the `Nat` domain). -/
def int_to_bytes_be_min (n : Nat) : List Nat :=
  if n = 0 then [0] else to_bytes_be ((bit_length n + 7) / 8) n

/-! #### SHA-256 (executable model of `hashlib.sha256` for byte lists) -/

def w32 (n : Nat) : Nat := n % 4294967296

def rotr32 (n x : Nat) : Nat := ((x >>> n) ||| (x <<< (32 - n))) % 4294967296

def sha_ch (e f g : Nat) : Nat := (e &&& f) ^^^ ((e ^^^ 4294967295) &&& g)

def sha_maj (a b c : Nat) : Nat := (a &&& b) ^^^ (a &&& c) ^^^ (b &&& c)

def sha_bsig0 (x : Nat) : Nat := rotr32 2 x ^^^ rotr32 13 x ^^^ rotr32 22 x

def sha_bsig1 (x : Nat) : Nat := rotr32 6 x ^^^ rotr32 11 x ^^^ rotr32 25 x

def sha_ssig0 (x : Nat) : Nat := rotr32 7 x ^^^ rotr32 18 x ^^^ (x >>> 3)

def sha_ssig1 (x : Nat) : Nat := rotr32 17 x ^^^ rotr32 19 x ^^^ (x >>> 10)

def sha_k : List Nat :=
  [1116352408, 1899447441, 3049323471, 3921009573,
   961987163, 1508970993, 2453635748, 2870763221,
   3624381080, 310598401, 607225278, 1426881987,
   1925078388, 2162078206, 2614888103, 3248222580,
   3835390401, 4022224774, 264347078, 604807628,
   770255983, 1249150122, 1555081692, 1996064986,
   2554220882, 2821834349, 2952996808, 3210313671,
   3336571891, 3584528711, 113926993, 338241895,
   666307205, 773529912, 1294757372, 1396182291,
   1695183700, 1986661051, 2177026350, 2456956037,
   2730485921, 2820302411, 3259730800, 3345764771,
   3516065817, 3600352804, 4094571909, 275423344,
   430227734, 506948616, 659060556, 883997877,
   958139571, 1322822218, 1537002063, 1747873779,
   1955562222, 2024104815, 2227730452, 2361852424,
   2428436474, 2756734187, 3204031479, 3329325298]

def sha_h0 : List Nat :=
  [1779033703, 3144134277, 1013904242, 2773480762,
   1359893119, 2600822924, 528734635, 1541459225]

def sha_pad (msg : List Nat) : List Nat :=
  msg ++ [128] ++ List.replicate ((119 - msg.length % 64) % 64) 0 ++ to_bytes_be 8 (8 * msg.length)

def chunks64 : Nat → List Nat → List (List Nat)
  | 0, _ => []
  | _ + 1, [] => []
  | fuel + 1, l => l.take 64 :: chunks64 fuel (l.drop 64)

def bytes_to_words : List Nat → List Nat
  | b0 :: b1 :: b2 :: b3 :: rest => (((b0 * 256 + b1) * 256 + b2) * 256 + b3) :: bytes_to_words rest
  | _ => []

def sha_extend : Nat → List Nat → List Nat
  | 0, w => w
  | n + 1, w =>
    let t := w32 (sha_ssig1 (w.getD (w.length - 2) 0) + w.getD (w.length - 7) 0 +
                  sha_ssig0 (w.getD (w.length - 15) 0) + w.getD (w.length - 16) 0)
    sha_extend n (w ++ [t])

def sha_round (s : List Nat) (kw : Nat × Nat) : List Nat :=
  match s with
  | [a, b, c, d, e, f, g, h] =>
    let t1 := w32 (h + sha_bsig1 e + sha_ch e f g + kw.1 + kw.2)
    let t2 := w32 (sha_bsig0 a + sha_maj a b c)
    [w32 (t1 + t2), a, b, c, w32 (d + t1), e, f, g]
  | other => other

def sha_block (hs : List Nat) (block : List Nat) : List Nat :=
  let w := sha_extend 48 (bytes_to_words block)
  let s := (sha_k.zip w).foldl sha_round hs
  List.zipWith (fun a b => w32 (a + b)) hs s

def sha256_bytes (msg : List Nat) : List Nat :=
  let padded := sha_pad msg
  let blocks := chunks64 padded.length padded
  (blocks.foldl sha_block sha_h0).foldr (fun h acc => to_bytes_be 4 h ++ acc) []

def hex_digit_chars : List Char := ("0123456789abcdef").toList

def byte_to_hex (b : Nat) : List Char :=
  [hex_digit_chars.getD (b / 16) ('0'), hex_digit_chars.getD (b % 16) ('0')]

/-- Python `bytes.hex()`. -/
def bytes_to_hex (bs : List Nat) : String :=
  String.mk (bs.foldr (fun b acc => byte_to_hex b ++ acc) [])

/-- `sha256_hex` from `cantor.py`. -/
def sha256_hex (bs : List Nat) : String := bytes_to_hex (sha256_bytes bs)

/-- `sha256_int_hex` from `cantor.py`. -/
def sha256_int_hex (n : Nat) : String := sha256_hex (int_to_bytes_be_min n)

/-- Numeric value of one (ASCII) hex digit. -/
def hex_char_val (c : Char) : Nat :=
  if c.toNat ≤ 57 then c.toNat - 48 else if c.toNat ≤ 70 then c.toNat - 55 else c.toNat - 87

/-- Python `bytes.fromhex` on an even-length hex string (as a char list). -/
def hex_to_bytes : List Char → List Nat
  | c1 :: c2 :: rest => (16 * hex_char_val c1 + hex_char_val c2) :: hex_to_bytes rest
  | _ => []

/-- `sha256(bytes.fromhex(key_hex)).hex()`, the discovery-id computation used
by the `cantor` CLI command in `cli.py`. -/
def discovery_id_of_key_hex (key_hex : String) : String :=
  bytes_to_hex (sha256_bytes (hex_to_bytes key_hex.toList))

/-! ### Movement proofs (`movement.py`) -/

/-- `DEFAULT_MAX_COMPUTE_HEIGHT = 20` from `movement.py`. -/
def DEFAULT_MAX_COMPUTE_HEIGHT : Nat := 20

/-- `find_lca_height` from `movement.py`: `0` if equal, else
`(v1 ^ v2).bit_length()`. -/
def find_lca_height (v1 v2 : Nat) : Nat :=
  if v1 = v2 then 0 else bit_length (v1 ^^^ v2)

/-- The failure cases raised by `compute_subtree_cantor` (the `height < 0`
guard is vacuous over `Nat`). -/
inductive MoveErr where
  | heightTooLarge : MoveErr
  | leafCountTooLarge : MoveErr
deriving DecidableEq

/-- One pass of the reduction loop body in `compute_subtree_cantor`:
`[cantor_pair(values[i], values[i+1]) for i in range(0, len(values), 2)]`
(the list always has even length there). -/
def reduce_once : List Nat → List Nat
  | a :: b :: rest => cantor_pairN a b :: reduce_once rest
  | _ => []

/-- `for _ in range(height): values = reduce_once(values)`. -/
def reduce_iter : Nat → List Nat → List Nat
  | 0, l => l
  | n + 1, l => reduce_iter n (reduce_once l)

/-- `compute_subtree_cantor(base, height, max_compute_height)` from
`movement.py`.  `sys.maxsize` is `2^63 - 1` on CPython/64-bit. -/
def compute_subtree_cantor (base height maxc : Nat) : Except MoveErr Nat :=
  if height > maxc then .error .heightTooLarge
  else if height = 0 then .ok base
  else
    let leaf_count := 1 <<< height
    if leaf_count > 9223372036854775807 then .error .leafCountTooLarge
    else .ok ((reduce_iter height (List.range' base leaf_count)).headD 0)

/-- `compute_axis_cantor(v1, v2, max_compute_height)` from `movement.py`. -/
def compute_axis_cantor (v1 v2 maxc : Nat) : Except MoveErr Nat :=
  compute_subtree_cantor
    ((v1 >>> find_lca_height v1 v2) <<< find_lca_height v1 v2)
    (find_lca_height v1 v2) maxc

/-- The `MovementProof` dataclass from `movement.py`. -/
structure MovementProof where
  cantor_x : Nat
  cantor_y : Nat
  cantor_z : Nat
  combined : Nat
  proof_hash : String
deriving DecidableEq

/-- `compute_movement_proof_xyz` from `movement.py`. -/
def compute_movement_proof_xyz (x1 y1 z1 x2 y2 z2 maxc : Nat) :
    Except MoveErr MovementProof := do
  let cx ← compute_axis_cantor x1 x2 maxc
  let cy ← compute_axis_cantor y1 y2 maxc
  let cz ← compute_axis_cantor z1 z2 maxc
  let combined := cantor_pairN (cantor_pairN cx cy) cz
  return { cantor_x := cx, cantor_y := cy, cantor_z := cz, combined := combined,
           proof_hash := sha256_int_hex combined }

/-- Claim C2: the movement proof for `(0,0,0) → (3,2,1)` at the default
compute bound yields `cantor_x = cantor_y = 228`, `cantor_z = 2`,
`combined = 5452446953`, the stated SHA-256 proof hash, and the stated
discovery id (SHA-256 of the proof-hash bytes). -/
theorem claim_C2_movement_proof_example :
    compute_movement_proof_xyz 0 0 0 3 2 1 DEFAULT_MAX_COMPUTE_HEIGHT =
      Except.ok { cantor_x := 228, cantor_y := 228, cantor_z := 2, combined := 5452446953,
                  proof_hash := "9306cfcf163adfa9a1f34933091a445bbbc77de02a1e504eba9d6bcd5950b414" } ∧
    discovery_id_of_key_hex
        ("9306cfcf163adfa9a1f34933091a445bbbc77de02a1e504eba9d6bcd5950b414") =
      "1247b1caeb69145100d6adbb52943c36d72023b10a0f5f434d41311d0b0b339c" :=
  ⟨by rfl, by decide⟩

/-- Claim C7 counterexample: `cantor_pair(-1, 0)` evaluates to `0`.  The code
contains no sign check, so no error is signalled on a negative operand. -/
theorem claim_C7_counterexample : cantor_pair (-1) 0 = 0 := by decide

/-- Claim C7 amended: `cantor_pair` is total on all integer operands
(negative ones included) and always satisfies
`2 * pair(a,b) = (a+b)(a+b+1) + 2b`; the floor division is always exact and
no failure path exists. -/
theorem claim_C7_amended_total (a b : ℤ) :
    2 * cantor_pair a b = (a + b) * (a + b + 1) + 2 * b := by
  unfold cantor_pair
  obtain ⟨t, ht⟩ := Int.even_mul_succ_self (a + b)
  rw [ht, show (t + t : ℤ) = 2 * t by ring, Int.mul_fdiv_cancel_left _ (by norm_num)]
  ring

/-! #### Direction independence of movement proofs -/

lemma shiftRight_bit_length_xor (v1 v2 : Nat) :
    v1 >>> bit_length (v1 ^^^ v2) = v2 >>> bit_length (v1 ^^^ v2) := by
  apply Nat.eq_of_testBit_eq
  intro k
  rw [Nat.testBit_shiftRight, Nat.testBit_shiftRight]
  have hx : (v1 ^^^ v2).testBit (bit_length (v1 ^^^ v2) + k) = false := by
    apply Nat.testBit_lt_two_pow
    calc v1 ^^^ v2 < 2 ^ bit_length (v1 ^^^ v2) := lt_two_pow_bit_length _
      _ ≤ 2 ^ (bit_length (v1 ^^^ v2) + k) := Nat.pow_le_pow_right (by omega) (by omega)
  rw [Nat.testBit_xor] at hx
  cases h1 : v1.testBit (bit_length (v1 ^^^ v2) + k) <;>
    cases h2 : v2.testBit (bit_length (v1 ^^^ v2) + k) <;>
      simp_all

lemma find_lca_height_symm (v1 v2 : Nat) :
    find_lca_height v1 v2 = find_lca_height v2 v1 := by
  unfold find_lca_height
  rcases eq_or_ne v1 v2 with rfl | h
  · rfl
  · rw [if_neg h, if_neg (Ne.symm h), Nat.xor_comm]

lemma compute_axis_cantor_symm (v1 v2 maxc : Nat) :
    compute_axis_cantor v1 v2 maxc = compute_axis_cantor v2 v1 maxc := by
  rcases eq_or_ne v1 v2 with rfl | h
  · rfl
  · unfold compute_axis_cantor
    rw [find_lca_height_symm v2 v1]
    have hH : find_lca_height v1 v2 = bit_length (v1 ^^^ v2) := by
      unfold find_lca_height
      rw [if_neg h]
    rw [hH, shiftRight_bit_length_xor v1 v2]

/-- Claim C9: movement proofs are direction independent.  For endpoints whose
per-axis LCA heights are within the compute bound, swapping the two endpoints
yields the identical proof record (roots, combined value and hash). -/
theorem claim_C9_direction_independent (x1 y1 z1 x2 y2 z2 maxc : Nat)
    (_hx : find_lca_height x1 x2 ≤ maxc)
    (_hy : find_lca_height y1 y2 ≤ maxc)
    (_hz : find_lca_height z1 z2 ≤ maxc) :
    compute_movement_proof_xyz x1 y1 z1 x2 y2 z2 maxc =
      compute_movement_proof_xyz x2 y2 z2 x1 y1 z1 maxc := by
  simp only [compute_movement_proof_xyz]
  rw [compute_axis_cantor_symm x1 x2, compute_axis_cantor_symm y1 y2,
    compute_axis_cantor_symm z1 z2]

/-- Witness for C9 on the spec's example hop `(0,0,0) ↔ (3,2,1)`. -/
theorem claim_C9_witness :
    (find_lca_height 0 3 ≤ 20 ∧ find_lca_height 0 2 ≤ 20 ∧ find_lca_height 0 1 ≤ 20) ∧
      compute_movement_proof_xyz 0 0 0 3 2 1 20 = compute_movement_proof_xyz 3 2 1 0 0 0 20 :=
  ⟨⟨by decide, by decide, by decide⟩,
   claim_C9_direction_independent 0 0 0 3 2 1 20 (by decide) (by decide) (by decide)⟩

/-! ### Toward pathing (`toward.py`) -/

/-- The `StepResult` dataclass from `toward.py`. -/
structure StepResult where
  current : Nat
  target : Nat
  next : Nat
  lca_height : Nat
deriving DecidableEq

/-- The distinct `ValueError` raise sites of `choose_next_axis_value_toward`
in `toward.py`, tagged by their messages:
`badMaxHeight` = "max_lca_height must be >= 1 to make progress",
`cannotProgress` = "cannot progress from ...",
`nextOutOfRange` = "next value out of axis range",
`internalHigh` = "internal error: computed h > max_lca_height". -/
inductive TowardErr where
  | badMaxHeight : TowardErr
  | cannotProgress : TowardErr
  | nextOutOfRange : TowardErr
  | internalHigh : TowardErr
deriving DecidableEq

/-- `block_base = (current >> max_lca_height) << max_lca_height` from
`choose_next_axis_value_toward`. -/
def block_base (current H : Nat) : Nat := (current >>> H) <<< H

/-- `block_end = block_base + (1 << max_lca_height) - 1`. -/
def block_end (current H : Nat) : Nat := block_base current H + (1 <<< H) - 1

/-- The `nxt` computed in `choose_next_axis_value_toward`: the target clamped
into `[block_base, block_end]`. -/
def clamp_to_block (current target H : Nat) : Nat :=
  if target < block_base current H then block_base current H
  else if target > block_end current H then block_end current H
  else target

/-- `choose_next_axis_value_toward` from `toward.py`.  The Python lower-bound
half of `0 <= nxt <= AXIS_MAX` is automatic over `Nat`. -/
def choose_next_axis_value_toward (current target max_lca_height : Nat) :
    Except TowardErr StepResult :=
  if current = target then
    .ok { current := current, target := target, next := current, lca_height := 0 }
  else if max_lca_height ≤ 0 then .error .badMaxHeight
  else if clamp_to_block current target max_lca_height = current then
    .error .cannotProgress
  else if ¬ (clamp_to_block current target max_lca_height ≤ AXIS_MAX) then
    .error .nextOutOfRange
  else if find_lca_height current (clamp_to_block current target max_lca_height) >
      max_lca_height then
    .error .internalHigh
  else
    .ok { current := current, target := target,
          next := clamp_to_block current target max_lca_height,
          lca_height := find_lca_height current (clamp_to_block current target max_lca_height) }

lemma block_base_le_self (C H : Nat) : block_base C H ≤ C := by
  unfold block_base
  rw [Nat.shiftRight_eq_div_pow, Nat.shiftLeft_eq]
  exact Nat.div_mul_le_self C (2 ^ H)

lemma le_block_end_self (C H : Nat) : C ≤ block_end C H := by
  unfold block_end block_base
  simp only [Nat.shiftRight_eq_div_pow, Nat.shiftLeft_eq, one_mul]
  rw [Nat.mul_comm (C / 2 ^ H) (2 ^ H)]
  have hpos : 0 < 2 ^ H := Nat.pos_pow_of_pos H (by omega)
  have hmod : C % 2 ^ H < 2 ^ H := Nat.mod_lt C hpos
  have hdm := Nat.div_add_mod C (2 ^ H)
  omega

lemma block_base_le_block_end (C H : Nat) : block_base C H ≤ block_end C H :=
  le_trans (block_base_le_self C H) (le_block_end_self C H)

lemma clamp_eq_max_min (C T H : Nat) :
    clamp_to_block C T H = max (block_base C H) (min T (block_end C H)) := by
  have hbe := block_base_le_block_end C H
  unfold clamp_to_block
  split_ifs with h1 h2
  · rw [Nat.min_eq_left (by omega), Nat.max_eq_left (by omega)]
  · rw [Nat.min_eq_right (by omega), Nat.max_eq_right (by omega)]
  · rw [Nat.min_eq_left (by omega), Nat.max_eq_right (by omega)]

/-- Claim C5: a successful per-axis toward step returns the target clamped
into the `H`-aligned block containing the current value, respects the LCA
height bound, and strictly decreases the distance to the target. -/
theorem claim_C5_toward_step (C T H : Nat)
    (_hC : C ≤ AXIS_MAX) (_hT : T ≤ AXIS_MAX) (hne : C ≠ T) (hH : 1 ≤ H)
    (r : StepResult)
    (hok : choose_next_axis_value_toward C T H = .ok r) :
    r.next = max (block_base C H) (min T (block_end C H)) ∧
    find_lca_height C r.next ≤ H ∧
    Nat.dist T r.next < Nat.dist T C := by
  have hbbC := block_base_le_self C H
  have hCbe := le_block_end_self C H
  unfold choose_next_axis_value_toward at hok
  rw [if_neg hne, if_neg (by omega : ¬ H ≤ 0)] at hok
  by_cases hstuck : clamp_to_block C T H = C
  · rw [if_pos hstuck] at hok
    exact absurd hok (by simp)
  · rw [if_neg hstuck] at hok
    by_cases hrange : ¬ (clamp_to_block C T H ≤ AXIS_MAX)
    · rw [if_pos hrange] at hok
      exact absurd hok (by simp)
    · rw [if_neg hrange] at hok
      by_cases hhigh : find_lca_height C (clamp_to_block C T H) > H
      · rw [if_pos hhigh] at hok
        exact absurd hok (by simp)
      · rw [if_neg hhigh] at hok
        have hr : r =
            StepResult.mk C T (clamp_to_block C T H)
              (find_lca_height C (clamp_to_block C T H)) :=
          (Except.ok.inj hok).symm
        subst hr
        refine ⟨(clamp_eq_max_min C T H), ?_, ?_⟩
        · show find_lca_height C (clamp_to_block C T H) ≤ H
          omega
        show Nat.dist T (clamp_to_block C T H) < Nat.dist T C
        unfold clamp_to_block at hstuck ⊢
        split_ifs at hstuck ⊢ with h1 h2
        · simp only [Nat.dist]
          omega
        · simp only [Nat.dist]
          omega
        · simp only [Nat.dist]
          omega

/-- Witness for C5 at `current = 0`, `target = 5`, `max_lca_height = 1`. -/
theorem claim_C5_toward_step_witness :
    ((0 : Nat) ≤ AXIS_MAX ∧ (5 : Nat) ≤ AXIS_MAX ∧ (0 : Nat) ≠ 5 ∧ (1 : Nat) ≤ 1 ∧
      choose_next_axis_value_toward 0 5 1 = .ok (StepResult.mk 0 5 1 1)) ∧
    (StepResult.mk 0 5 1 1).next = max (block_base 0 1) (min 5 (block_end 0 1)) ∧
      find_lca_height 0 (StepResult.mk 0 5 1 1).next ≤ 1 ∧
      Nat.dist 5 (StepResult.mk 0 5 1 1).next < Nat.dist 5 0 :=
  ⟨⟨by decide, by decide, by decide, le_rfl, by rfl⟩,
   claim_C5_toward_step 0 5 1 (by decide) (by decide) (by decide) le_rfl
     (StepResult.mk 0 5 1 1) (by rfl)⟩

/-! ### Toward-walk orchestration (`cli.py`, `move --toward`) -/

/-- Failures surfaced by `_axis_step` in `cli.py`: a re-raised
`choose_next_axis_value_toward` error (bare `raise`), or the
"boundary crossing would require max_lca_height={needed}" error. -/
inductive AxisStepErr where
  | reraised (e : TowardErr) : AxisStepErr
  | escapeNeedsHeight (needed : Nat) : AxisStepErr
deriving DecidableEq

/-- `nxt = current + 1 if target > current else current - 1` from `_axis_step`. -/
def escape_next (current target : Nat) : Nat :=
  if current < target then current + 1 else current - 1

/-- `_axis_step` from the `--toward` loop of the `move` command in `cli.py`:
take a bounded step if possible; on "cannot progress", cross the block
boundary with a ±1 step, requiring LCA height exactly `effH + 1`. -/
def _axis_step (current target effH : Nat) : Except AxisStepErr (Nat × Nat × Bool) :=
  match choose_next_axis_value_toward current target effH with
  | .ok r => .ok (r.next, r.lca_height, false)
  | .error e =>
    if e ≠ TowardErr.cannotProgress then .error (.reraised e)
    else if ¬ (escape_next current target ≤ AXIS_MAX) then .error (.reraised e)
    else if find_lca_height current (escape_next current target) ≠ effH + 1 then
      .error (.escapeNeedsHeight (find_lca_height current (escape_next current target)))
    else .ok (escape_next current target,
              find_lca_height current (escape_next current target), true)

/-- One hop of the toward walk: new position, the three per-axis LCA heights
reported by `_axis_step`, and the height limit used for the hop. -/
structure TowardHop where
  x : Nat
  y : Nat
  z : Nat
  hx : Nat
  hy : Nat
  hz : Nat
  hop_limit : Nat
deriving DecidableEq

inductive WalkErr where
  | outOfFuel : WalkErr
  | cannotContinue (e : AxisStepErr) : WalkErr
  | hopTooLarge : WalkErr
deriving DecidableEq

/-- The `--toward` loop of `move` in `cli.py`, restricted to a fixed plane
(plane switches and event emission are outside this model, and `fuel` bounds
the number of iterations of the otherwise unbounded `while True`).  Each
iteration: arrival check, the three `_axis_step` calls (first failure wins),
the `hop_limit` bump to `effH + 1` when any axis crossed a boundary, and the
`_do_single_hop` LCA-height guard `max(hx, hy, hz) <= hop_limit`. -/
def toward_walk :
    Nat → Nat → Nat → Nat → Nat → Nat → Nat → Nat → Except WalkErr (List TowardHop)
  | 0, _, _, _, _, _, _, _ => .error .outOfFuel
  | fuel + 1, x, y, z, tx, ty, tz, effH =>
    if x = tx ∧ y = ty ∧ z = tz then .ok []
    else
      match _axis_step x tx effH, _axis_step y ty effH, _axis_step z tz effH with
      | .ok (x2, hx, bx), .ok (y2, hy, b2), .ok (z2, hz, b3) =>
        if max (find_lca_height x x2) (max (find_lca_height y y2) (find_lca_height z z2)) >
            (if bx || b2 || b3 then effH + 1 else effH) then
          .error .hopTooLarge
        else
          match toward_walk fuel x2 y2 z2 tx ty tz effH with
          | .ok rest =>
            .ok (TowardHop.mk x2 y2 z2 hx hy hz (if bx || b2 || b3 then effH + 1 else effH)
                  :: rest)
          | .error e => .error e
      | .error e, _, _ => .error (.cannotContinue e)
      | _, .error e, _ => .error (.cannotContinue e)
      | _, _, .error e => .error (.cannotContinue e)

/-- When `choose_next_axis_value_toward` failed with "cannot progress",
`_axis_step` reduces to the boundary-escape branch. -/
lemma _axis_step_escape (C T H : Nat)
    (herr : choose_next_axis_value_toward C T H = .error .cannotProgress) :
    _axis_step C T H =
      (if ¬ (escape_next C T ≤ AXIS_MAX) then .error (.reraised .cannotProgress)
       else if find_lca_height C (escape_next C T) ≠ H + 1 then
         .error (.escapeNeedsHeight (find_lca_height C (escape_next C T)))
       else .ok (escape_next C T, find_lca_height C (escape_next C T), true)) := by
  unfold _axis_step
  rw [herr]
  simp

/-- Claim C6: when the per-axis step cannot progress, the orchestrator steps
that axis by ±1 toward the target, allowing LCA height `max_lca_height + 1`
for that single hop, and fails whenever the required escape height differs
from (in particular, exceeds) `max_lca_height + 1`.  Concretely, with
`max_lca_height = 4`, walking from `x = 15` toward `x = 31` produces exactly
two hops, `15 → 16` (height 5, limit bumped to 5) then `16 → 31` (height 4),
ending at the target. -/
theorem claim_C6_boundary_escape :
    (∀ C T H, C ≤ AXIS_MAX → T ≤ AXIS_MAX →
      choose_next_axis_value_toward C T H = .error .cannotProgress →
      ((find_lca_height C (escape_next C T) = H + 1 →
          _axis_step C T H = .ok (escape_next C T, H + 1, true)) ∧
       (find_lca_height C (escape_next C T) ≠ H + 1 →
          _axis_step C T H =
            .error (.escapeNeedsHeight (find_lca_height C (escape_next C T)))))) ∧
    toward_walk 5 15 0 0 31 0 0 4 =
      .ok [TowardHop.mk 16 0 0 5 0 0 5, TowardHop.mk 31 0 0 4 0 0 4] := by
  constructor
  · intro C T H hC hT herr
    have hrange : escape_next C T ≤ AXIS_MAX := by
      unfold escape_next
      split <;> omega
    constructor
    · intro hneed
      rw [_axis_step_escape C T H herr, if_neg (by omega), if_neg (by omega), hneed]
    · intro hneed
      rw [_axis_step_escape C T H herr, if_neg (by omega), if_pos hneed]
  · rfl

/-! ### Longitude wrap (`coords.py`, `_wrap_lon_deg`) -/

/-- Truncated integer quotient as used by Python's `decimal` module: the
General Decimal Arithmetic `divide-integer` operation rounds toward zero. -/
def dec_trunc (q : ℚ) : ℤ := if 0 ≤ q then ⌊q⌋ else ⌈q⌉

/-- Python `Decimal.__mod__` (the decimal `remainder` operation):
`a - b * trunc(a / b)`, so a non-zero result takes the sign of the dividend
`a`.  Decimal operands of modest size are exact in the 96-digit context used
by `_wrap_lon_deg`, so exact rational arithmetic models them faithfully. -/
def dec_rem (a b : ℚ) : ℚ := a - b * dec_trunc (a / b)

/-- `_wrap_lon_deg(lon)` from `coords.py`:
`(lon_deg + Decimal(180)) % Decimal(360) - Decimal(180)`. -/
def wrap_lon_deg (lon : ℚ) : ℚ := dec_rem (lon + 180) 360 - 180

lemma dec_trunc_zero_of_abs_lt {q : ℚ} (h1 : -1 < q) (h2 : q < 1) :
    dec_trunc q = 0 := by
  unfold dec_trunc
  split_ifs with h
  · exact Int.floor_eq_zero_iff.mpr (Set.mem_Ico.mpr ⟨h, h2⟩)
  · exact Int.ceil_eq_zero_iff.mpr (Set.mem_Ioc.mpr ⟨h1, by linarith⟩)

lemma dec_rem_360_bounds (a : ℚ) : -360 < dec_rem a 360 ∧ dec_rem a 360 < 360 := by
  unfold dec_rem dec_trunc
  have hkey : a / 360 * 360 = a := div_mul_cancel₀ a (by norm_num)
  split_ifs with h
  · have h1 := Int.floor_le (a / 360)
    have h2 := Int.lt_floor_add_one (a / 360)
    have h1m : (⌊a / 360⌋ : ℚ) * 360 ≤ a / 360 * 360 :=
      mul_le_mul_of_nonneg_right h1 (by norm_num)
    have h2m : a / 360 * 360 < ((⌊a / 360⌋ : ℚ) + 1) * 360 :=
      mul_lt_mul_of_pos_right h2 (by norm_num)
    rw [hkey] at h1m h2m
    constructor <;> nlinarith
  · have h1 := Int.le_ceil (a / 360)
    have h2 := Int.ceil_lt_add_one (a / 360)
    have h1m : a / 360 * 360 ≤ (⌈a / 360⌉ : ℚ) * 360 :=
      mul_le_mul_of_nonneg_right h1 (by norm_num)
    have h2m : (⌈a / 360⌉ : ℚ) * 360 < (a / 360 + 1) * 360 :=
      mul_lt_mul_of_pos_right h2 (by norm_num)
    rw [hkey] at h1m
    constructor <;> nlinarith
  
lemma dec_rem_360_self {a : ℚ} (h1 : -360 < a) (h2 : a < 360) :
    dec_rem a 360 = a := by
  unfold dec_rem
  have hq1 : a / 360 < 1 := (div_lt_one (by norm_num)).mpr h2
  have hq2 : (-1 : ℚ) < a / 360 := by
    rw [lt_div_iff₀ (by norm_num)]
    linarith
  rw [dec_trunc_zero_of_abs_lt hq2 hq1]
  push_cast
  ring

/-- Claim C3 (code bug): the longitude wrap evaluates to `-181` at
`lon = -181` — outside the documented range `[-180, 180)` — because Python's
`Decimal` remainder takes the sign of the dividend; the idempotence half of
the claim does hold for every input. -/
theorem claim_C3_wrap_lon_range_bug :
    wrap_lon_deg (-181) = -181 ∧ wrap_lon_deg (-181) < -180 ∧
      (∀ lon : ℚ, wrap_lon_deg (wrap_lon_deg lon) = wrap_lon_deg lon) := by
  have heval : wrap_lon_deg (-181) = -181 := by
    unfold wrap_lon_deg dec_rem
    rw [show (-181 : ℚ) + 180 = -1 by norm_num]
    rw [dec_trunc_zero_of_abs_lt (q := (-1 : ℚ) / 360) (by norm_num) (by norm_num)]
    norm_num
  refine ⟨heval, by rw [heval]; norm_num, ?_⟩
  intro lon
  have hb := dec_rem_360_bounds (lon + 180)
  unfold wrap_lon_deg
  rw [show dec_rem (lon + 180) 360 - 180 + 180 = dec_rem (lon + 180) 360 by ring]
  rw [dec_rem_360_self hb.1 hb.2]

/-! ### Chain log (`chains.py`) -/

/-- The fields of a chain event relevant to appending: the event `id` and the
id carried in its `["e", _, "", "previous"]` tag (absent for spawn events). -/
structure ChainEvent where
  id : String
  previous : String
deriving DecidableEq

/-- `append_event(label, event)` from `chains.py`, with the on-disk JSONL log
modelled as its list of events: the file is opened in append mode and the
event written unconditionally.  Neither `chains.py` nor its caller in
`cli.py` compares the tail id against the new event's `previous` tag. -/
def append_event (chain : List ChainEvent) (event : ChainEvent) : List ChainEvent :=
  chain ++ [event]

/-- The tail event id (`events[-1]["id"]` as read by `move` in `cli.py`). -/
def chain_tail_id (chain : List ChainEvent) : Option String :=
  chain.getLast?.map ChainEvent.id

/-- Claim C4 counterexample: appending an event whose `previous` tag does not
match the tail id succeeds and changes the chain — no chain-mismatch error is
signalled, contrary to the claim. -/
theorem claim_C4_counterexample :
    chain_tail_id [ChainEvent.mk ("aa") ("")] ≠ some ("cc") ∧
    append_event [ChainEvent.mk ("aa") ("")] (ChainEvent.mk ("bb") ("cc")) =
      [ChainEvent.mk ("aa") (""), ChainEvent.mk ("bb") ("cc")] ∧
    append_event [ChainEvent.mk ("aa") ("")] (ChainEvent.mk ("bb") ("cc")) ≠
      [ChainEvent.mk ("aa") ("")] :=
  ⟨by decide, rfl, by decide⟩

/-- Claim C4 amended: `append_event` validates nothing; even when the new
event's `previous` tag differs from the chain's tail id, the append succeeds,
extending the chain by exactly that event (the link invariant is maintained
only by construction in the orchestrator, which always sets `previous` to the
tail id). -/
theorem claim_C4_amended_append_unconditional
    (chain : List ChainEvent) (event : ChainEvent)
    (_hmismatch : chain_tail_id chain ≠ some event.previous) :
    append_event chain event = chain ++ [event] ∧
      (append_event chain event).length = chain.length + 1 :=
  ⟨rfl, by simp [append_event]⟩

/-- Witness for the amended C4 at a concrete mismatched append. -/
theorem claim_C4_amended_witness :
    (chain_tail_id [ChainEvent.mk ("aa") ("")] ≠
        some (ChainEvent.mk ("bb") ("cc")).previous) ∧
      (append_event [ChainEvent.mk ("aa") ("")] (ChainEvent.mk ("bb") ("cc")) =
          [ChainEvent.mk ("aa") ("")] ++ [ChainEvent.mk ("bb") ("cc")] ∧
        (append_event [ChainEvent.mk ("aa") ("")] (ChainEvent.mk ("bb") ("cc"))).length =
          [ChainEvent.mk ("aa") ("")].length + 1) :=
  ⟨by decide,
   claim_C4_amended_append_unconditional [ChainEvent.mk ("aa") ("")]
     (ChainEvent.mk ("bb") ("cc")) (by decide)⟩

/-! ### Coordinate hex normalization (`parsing.py`) -/

/-- Python `str.strip()`: drop whitespace from both ends (ASCII fragment). -/
def py_strip (l : List Char) : List Char :=
  ((l.dropWhile Char.isWhitespace).reverse.dropWhile Char.isWhitespace).reverse

/-- `s.removeprefix("0x")` (applied after lowercasing in `normalize_hex_32`). -/
def py_drop_0x (l : List Char) : List Char :=
  match l with
  | c1 :: c2 :: rest => if c1 = '0' ∧ c2 = 'x' then rest else l
  | _ => l

/-- Is `c` an ASCII hex digit (either case)?  Mirrors the digit set of
CPython `int(s, 16)`. -/
def is_hex_digit (c : Char) : Bool :=
  decide ((48 ≤ c.toNat ∧ c.toNat ≤ 57) ∨ (97 ≤ c.toNat ∧ c.toNat ≤ 102) ∨
    (65 ≤ c.toNat ∧ c.toNat ≤ 70))

/-- Is `c` a lowercase ASCII hex digit (`0-9`, `a-f`)? -/
def is_lower_hex_digit (c : Char) : Bool :=
  decide ((48 ≤ c.toNat ∧ c.toNat ≤ 57) ∨ (97 ≤ c.toNat ∧ c.toNat ≤ 102))

/-- Digit tail of CPython `int(s, 16)`: hex digits with single underscores
allowed strictly between digits. -/
def py_hex_digits_tail : List Char → Bool
  | [] => true
  | c :: rest =>
    if c = '_' then
      match rest with
      | c2 :: rest2 => is_hex_digit c2 && py_hex_digits_tail rest2
      | [] => false
    else is_hex_digit c && py_hex_digits_tail rest

/-- A non-empty run of hex digits with legal underscores. -/
def py_int16_digits (l : List Char) : Bool :=
  match l with
  | [] => false
  | c :: rest => is_hex_digit c && py_hex_digits_tail rest

/-- After a `0x` prefix, `int(s, 16)` allows one underscore before the first
digit (`int("0x_ff", 16)` is accepted). -/
def py_int16_body (l : List Char) : Bool :=
  match l with
  | [] => false
  | c :: rest => if c = '_' then py_int16_digits rest else py_int16_digits (c :: rest)

/-- Strip one optional leading sign, as `int(s, 16)` does. -/
def py_sign_stripped (l : List Char) : List Char :=
  match l with
  | c :: rest => if c = '+' ∨ c = '-' then rest else l
  | [] => l

/-- Acceptance of CPython `int(s, 16)`: optional sign, optional `0x`/`0X`
prefix, then hex digits with single underscores between digits (surrounding
whitespace is impossible here because `normalize_hex_32` strips first). -/
def py_int16_accepts (l : List Char) : Bool :=
  match py_sign_stripped l with
  | c1 :: c2 :: rest =>
    if c1 = '0' ∧ (c2 = 'x' ∨ c2 = 'X') then py_int16_body rest
    else py_int16_digits (c1 :: c2 :: rest)
  | l1 => py_int16_digits l1

/-- Python `str.zfill(width)`: left-pad with `'0'` to `width`, keeping a
leading sign character in place. -/
def py_zfill (l : List Char) (width : Nat) : List Char :=
  match l with
  | c :: rest =>
    if c = '+' ∨ c = '-' then c :: (List.replicate (width - l.length) '0' ++ rest)
    else List.replicate (width - l.length) '0' ++ l
  | [] => List.replicate width '0'

/-- The `ValueError` sites of `normalize_hex_32` in `parsing.py`. -/
inductive NormErr where
  | emptyHex : NormErr
  | tooLong : NormErr
  | invalidHex : NormErr
deriving DecidableEq

/-- `normalize_hex_32(s)` from `parsing.py`: `s.strip().lower()`, then
`removeprefix("0x")`, the emptiness and 64-char-length checks, `int(s, 16)`
validation, and finally `s.zfill(64)`.  `Char.toLower` is the ASCII fragment
of `str.lower`. -/
def normalize_hex_32 (s : List Char) : Except NormErr (List Char) :=
  if (py_drop_0x ((py_strip s).map Char.toLower)).isEmpty then .error .emptyHex
  else if 64 < (py_drop_0x ((py_strip s).map Char.toLower)).length then .error .tooLong
  else if ¬ (py_int16_accepts (py_drop_0x ((py_strip s).map Char.toLower)) = true) then
    .error .invalidHex
  else .ok (py_zfill (py_drop_0x ((py_strip s).map Char.toLower)) 64)

/-- Value of a hex-digit string (most significant digit first). -/
def hex_digits_value (l : List Char) : Nat :=
  l.foldl (fun a c => 16 * a + hex_char_val c) 0

/-- Claim C10 counterexample: the normalizer also accepts `"-1"` (CPython
`int("-1", 16)` parses a sign), and returns `"-" ++ 62 * "0" ++ "1"` — a
64-character string that is not made of hex digits, refuting "exactly 64
lowercase hex characters" for an accepted input. -/
theorem claim_C10_counterexample :
    normalize_hex_32 ['-', '1'] = .ok ('-' :: (List.replicate 62 '0' ++ ['1'])) ∧
    ('-' :: (List.replicate 62 '0' ++ ['1'])).all is_hex_digit = false ∧
    ('-' :: (List.replicate 62 '0' ++ ['1'])).length = 64 :=
  ⟨by rfl, by decide, by decide⟩

/-! #### Character-level helper lemmas for the normalizer -/

lemma char_ofNat_toNat {n : Nat} (h : n.isValidChar) : (Char.ofNat n).toNat = n := by
  unfold Char.ofNat
  rw [dif_pos h]
  unfold Char.ofNatAux
  rfl

lemma char_toNat_ne_imp {c d : Char} (h : c.toNat ≠ d.toNat) : c ≠ d :=
  fun he => h (congrArg Char.toNat he)

lemma lower_hex_ranges {c : Char} (h : is_lower_hex_digit c = true) :
    (48 ≤ c.toNat ∧ c.toNat ≤ 57) ∨ (97 ≤ c.toNat ∧ c.toNat ≤ 102) := by
  unfold is_lower_hex_digit at h
  exact of_decide_eq_true h

lemma hex_ranges {c : Char} (h : is_hex_digit c = true) :
    (48 ≤ c.toNat ∧ c.toNat ≤ 57) ∨ (97 ≤ c.toNat ∧ c.toNat ≤ 102) ∨
      (65 ≤ c.toNat ∧ c.toNat ≤ 70) := by
  unfold is_hex_digit at h
  exact of_decide_eq_true h

lemma toLower_toNat_of_upper {c : Char} (h1 : 65 ≤ c.toNat) (h2 : c.toNat ≤ 90) :
    (Char.toLower c).toNat = c.toNat + 32 := by
  simp only [Char.toLower]
  rw [if_pos ⟨h1, h2⟩]
  exact char_ofNat_toNat (Or.inl (by omega))

lemma toLower_eq_self_of_not_upper {c : Char} (h : ¬ (65 ≤ c.toNat ∧ c.toNat ≤ 90)) :
    Char.toLower c = c := by
  simp only [Char.toLower]
  rw [if_neg (by omega)]

/-- Lowercasing a hex digit yields a lowercase hex digit of the same value. -/
lemma toLower_of_hex {c : Char} (h : is_hex_digit c = true) :
    is_lower_hex_digit (Char.toLower c) = true ∧
      hex_char_val (Char.toLower c) = hex_char_val c := by
  have hr := hex_ranges h
  by_cases hup : 65 ≤ c.toNat ∧ c.toNat ≤ 90
  · have hl := toLower_toNat_of_upper hup.1 hup.2
    constructor
    · unfold is_lower_hex_digit
      rw [decide_eq_true_eq, hl]
      omega
    · unfold hex_char_val
      rw [hl]
      split_ifs <;> omega
  · have hl := toLower_eq_self_of_not_upper hup
    rw [hl]
    refine ⟨?_, rfl⟩
    unfold is_lower_hex_digit
    rw [decide_eq_true_eq]
    omega

lemma lower_hex_toLower_self {c : Char} (h : is_lower_hex_digit c = true) :
    Char.toLower c = c := by
  have hr := lower_hex_ranges h
  exact toLower_eq_self_of_not_upper (by omega)

lemma lower_hex_is_hex {c : Char} (h : is_lower_hex_digit c = true) :
    is_hex_digit c = true := by
  have hr := lower_hex_ranges h
  unfold is_hex_digit
  rw [decide_eq_true_eq]
  omega

lemma hex_not_whitespace {c : Char} (h : is_hex_digit c = true) :
    c.isWhitespace = false := by
  have hr := hex_ranges h
  have hsp : (' ' : Char).toNat = 32 := rfl
  have htab : ('\t' : Char).toNat = 9 := rfl
  have hcr : ('\r' : Char).toNat = 13 := rfl
  have hlf : ('\n' : Char).toNat = 10 := rfl
  simp only [Char.isWhitespace, Bool.or_eq_false_iff, decide_eq_false_iff_not]
  refine ⟨⟨⟨?_, ?_⟩, ?_⟩, ?_⟩ <;> exact char_toNat_ne_imp (by omega)

lemma lower_hex_not_sign {c : Char} (h : is_lower_hex_digit c = true) :
    ¬ (c = '+' ∨ c = '-') := by
  have hr := lower_hex_ranges h
  have hplus : ('+' : Char).toNat = 43 := rfl
  have hminus : ('-' : Char).toNat = 45 := rfl
  rintro (rfl | rfl) <;> omega

lemma lower_hex_ne_underscore {c : Char} (h : is_lower_hex_digit c = true) :
    ¬ (c = '_') := by
  have hr := lower_hex_ranges h
  have hu : ('_' : Char).toNat = 95 := rfl
  rintro rfl
  omega

lemma lower_hex_ne_x {c : Char} (h : is_lower_hex_digit c = true) :
    c ≠ 'x' ∧ c ≠ 'X' := by
  have hr := lower_hex_ranges h
  have hx : ('x' : Char).toNat = 120 := rfl
  have hX : ('X' : Char).toNat = 88 := rfl
  exact ⟨char_toNat_ne_imp (by omega), char_toNat_ne_imp (by omega)⟩

/-! #### List-level lemmas for the normalizer -/

lemma dropWhile_eq_self_of_all {p : Char → Bool} (l : List Char)
    (h : ∀ c ∈ l, p c = false) : l.dropWhile p = l := by
  cases l with
  | nil => rfl
  | cons c t =>
    rw [List.dropWhile_cons, h c (List.mem_cons_self c t)]
    simp

lemma py_strip_of_no_ws (l : List Char) (h : ∀ c ∈ l, c.isWhitespace = false) :
    py_strip l = l := by
  unfold py_strip
  rw [dropWhile_eq_self_of_all l h,
    dropWhile_eq_self_of_all l.reverse (fun c hc => h c (List.mem_reverse.mp hc)),
    List.reverse_reverse]

lemma all_lower_hex_of_map_toLower (l : List Char) (h : l.all is_hex_digit = true) :
    (l.map Char.toLower).all is_lower_hex_digit = true := by
  rw [List.all_map]
  rw [List.all_eq_true] at h ⊢
  exact fun c hc => (toLower_of_hex (h c hc)).1

lemma py_hex_digits_tail_of_lower (l : List Char) (h : l.all is_lower_hex_digit = true) :
    py_hex_digits_tail l = true := by
  induction l with
  | nil => rfl
  | cons c t ih =>
    rw [List.all_cons, Bool.and_eq_true] at h
    unfold py_hex_digits_tail
    rw [if_neg (lower_hex_ne_underscore h.1), lower_hex_is_hex h.1, ih h.2]
    rfl

lemma py_int16_digits_of_lower (c : Char) (t : List Char)
    (h : (c :: t).all is_lower_hex_digit = true) :
    py_int16_digits (c :: t) = true := by
  rw [List.all_cons, Bool.and_eq_true] at h
  unfold py_int16_digits
  show (is_hex_digit c && py_hex_digits_tail t) = true
  rw [lower_hex_is_hex h.1, py_hex_digits_tail_of_lower t h.2]
  rfl

lemma py_int16_accepts_of_lower (l : List Char) (hne : l ≠ [])
    (h : l.all is_lower_hex_digit = true) : py_int16_accepts l = true := by
  cases l with
  | nil => exact absurd rfl hne
  | cons c t =>
    have hc : is_lower_hex_digit c = true := by
      rw [List.all_cons, Bool.and_eq_true] at h
      exact h.1
    have hsign : py_sign_stripped (c :: t) = c :: t := by
      unfold py_sign_stripped
      show (if c = '+' ∨ c = '-' then t else c :: t) = c :: t
      rw [if_neg (lower_hex_not_sign hc)]
    unfold py_int16_accepts
    rw [hsign]
    cases t with
    | nil => exact py_int16_digits_of_lower c [] h
    | cons c2 t2 =>
      have hc2 : is_lower_hex_digit c2 = true := by
        rw [List.all_cons, List.all_cons] at h
        simp only [Bool.and_eq_true] at h
        exact h.2.1
      show (if c = '0' ∧ (c2 = 'x' ∨ c2 = 'X') then py_int16_body t2
            else py_int16_digits (c :: c2 :: t2)) = true
      rw [if_neg (by rintro ⟨_, (rfl | rfl)⟩ <;>
        [exact (lower_hex_ne_x hc2).1 rfl; exact (lower_hex_ne_x hc2).2 rfl])]
      exact py_int16_digits_of_lower c (c2 :: t2) h

lemma py_drop_0x_of_lower (l : List Char) (h : l.all is_lower_hex_digit = true) :
    py_drop_0x l = l := by
  cases l with
  | nil => rfl
  | cons c t =>
    cases t with
    | nil => rfl
    | cons c2 t2 =>
      have hc2 : is_lower_hex_digit c2 = true := by
        rw [List.all_cons, List.all_cons] at h
        simp only [Bool.and_eq_true] at h
        exact h.2.1
      unfold py_drop_0x
      show (if c = '0' ∧ c2 = 'x' then t2 else c :: c2 :: t2) = c :: c2 :: t2
      rw [if_neg (by rintro ⟨_, rfl⟩; exact (lower_hex_ne_x hc2).1 rfl)]

lemma py_zfill_of_lower (l : List Char) (hne : l ≠ [])
    (h : l.all is_lower_hex_digit = true) :
    py_zfill l 64 = List.replicate (64 - l.length) '0' ++ l := by
  cases l with
  | nil => exact absurd rfl hne
  | cons c t =>
    have hc : is_lower_hex_digit c = true := by
      rw [List.all_cons, Bool.and_eq_true] at h
      exact h.1
    unfold py_zfill
    show (if c = '+' ∨ c = '-' then
            c :: (List.replicate (64 - (c :: t).length) '0' ++ t)
          else List.replicate (64 - (c :: t).length) '0' ++ (c :: t)) =
        List.replicate (64 - (c :: t).length) '0' ++ (c :: t)
    rw [if_neg (lower_hex_not_sign hc)]

/-- Reduction of `normalize_hex_32` once strip/lower/removeprefix have
produced a non-empty lowercase-hex string of length at most 64. -/
lemma normalize_hex_32_reduces (s m : List Char)
    (hs : py_drop_0x ((py_strip s).map Char.toLower) = m)
    (hne : m ≠ []) (hlen : m.length ≤ 64) (hall : m.all is_lower_hex_digit = true) :
    normalize_hex_32 s = .ok (List.replicate (64 - m.length) '0' ++ m) := by
  have hemp : ¬ (m.isEmpty = true) := by
    cases m with
    | nil => exact absurd rfl hne
    | cons c t => simp
  unfold normalize_hex_32
  rw [hs]
  rw [if_neg hemp, if_neg (by omega),
    if_neg (not_not_intro (py_int16_accepts_of_lower m hne hall)),
    py_zfill_of_lower m hne hall]

lemma hex_digits_value_replicate_zero (k : Nat) (l : List Char) :
    hex_digits_value (List.replicate k '0' ++ l) = hex_digits_value l := by
  unfold hex_digits_value
  rw [List.foldl_append]
  have hz : List.foldl (fun a c => 16 * a + hex_char_val c) 0 (List.replicate k '0') = 0 := by
    induction k with
    | zero => rfl
    | succ k ih =>
      rw [List.replicate_succ, List.foldl_cons]
      have h0 : 16 * 0 + hex_char_val ('0') = 0 := rfl
      rw [h0]
      exact ih
  rw [hz]

lemma hex_fold_map_toLower :
    ∀ (l : List Char) (a : Nat), l.all is_hex_digit = true →
      List.foldl (fun a c => 16 * a + hex_char_val c) a (l.map Char.toLower) =
        List.foldl (fun a c => 16 * a + hex_char_val c) a l := by
  intro l
  induction l with
  | nil =>
    intro a _
    rfl
  | cons c t ih =>
    intro a h
    rw [List.all_cons, Bool.and_eq_true] at h
    rw [List.map_cons, List.foldl_cons, List.foldl_cons, (toLower_of_hex h.1).2]
    exact ih _ h.2

lemma hex_digits_value_map_toLower (l : List Char) (h : l.all is_hex_digit = true) :
    hex_digits_value (l.map Char.toLower) = hex_digits_value l :=
  hex_fold_map_toLower l 0 h

lemma map_toLower_id_of_lower (l : List Char) (h : l.all is_lower_hex_digit = true) :
    l.map Char.toLower = l := by
  induction l with
  | nil => rfl
  | cons c t ih =>
    rw [List.all_cons, Bool.and_eq_true] at h
    rw [List.map_cons, lower_hex_toLower_self h.1, ih h.2]

lemma replicate_zero_all_lower (k : Nat) :
    (List.replicate k '0').all is_lower_hex_digit = true := by
  rw [List.all_eq_true]
  intro c hc
  rw [List.eq_of_mem_replicate hc]
  decide

/-- Claim C10 amended: for every input that is 1–64 hex digits after an
optional `0x` prefix, the normalizer succeeds and its output is exactly 64
lowercase hex characters denoting the same integer value as the digits of
the input, and the normalizer is idempotent on that output.  (The
counterexample shows the accepted set is larger than the claim's
parenthetical: signed and underscored inputs are also accepted, and there
the output is not hex.) -/
theorem claim_C10_amended_normalizer (ds pre_l : List Char)
    (hpre : pre_l = [] ∨ pre_l = ['0', 'x'])
    (hne : ds ≠ []) (hlen : ds.length ≤ 64) (hhex : ds.all is_hex_digit = true) :
    ∃ out, normalize_hex_32 (pre_l ++ ds) = .ok out ∧
      out.length = 64 ∧ out.all is_lower_hex_digit = true ∧
      hex_digits_value out = hex_digits_value ds ∧
      normalize_hex_32 out = .ok out := by
  have hm_all : (ds.map Char.toLower).all is_lower_hex_digit = true :=
    all_lower_hex_of_map_toLower ds hhex
  have hm_len : (ds.map Char.toLower).length = ds.length := List.length_map ds Char.toLower
  have hm_ne : ds.map Char.toLower ≠ [] := by
    cases ds with
    | nil => exact absurd rfl hne
    | cons c t => simp
  have hstrip : py_strip (pre_l ++ ds) = pre_l ++ ds := by
    apply py_strip_of_no_ws
    intro c hc
    rcases List.mem_append.mp hc with hcp | hcd
    · rcases hpre with rfl | rfl
      · simp at hcp
      · simp only [List.mem_cons, List.not_mem_nil, or_false] at hcp
        rcases hcp with rfl | rfl <;> decide
    · exact hex_not_whitespace (List.all_eq_true.mp hhex c hcd)
  have hmap : (pre_l ++ ds).map Char.toLower = pre_l ++ ds.map Char.toLower := by
    rw [List.map_append]
    rcases hpre with rfl | rfl
    · rfl
    · rfl
  have hdrop : py_drop_0x ((py_strip (pre_l ++ ds)).map Char.toLower) =
      ds.map Char.toLower := by
    rw [hstrip, hmap]
    rcases hpre with rfl | rfl
    · rw [List.nil_append]
      exact py_drop_0x_of_lower (ds.map Char.toLower) hm_all
    · show py_drop_0x ('0' :: 'x' :: ds.map Char.toLower) = ds.map Char.toLower
      unfold py_drop_0x
      show (if ('0' : Char) = '0' ∧ ('x' : Char) = 'x' then ds.map Char.toLower
            else '0' :: 'x' :: ds.map Char.toLower) = ds.map Char.toLower
      rw [if_pos ⟨rfl, rfl⟩]
  have hout := normalize_hex_32_reduces (pre_l ++ ds) (ds.map Char.toLower) hdrop
    hm_ne (by omega) hm_all
  have hlen_out :
      (List.replicate (64 - (ds.map Char.toLower).length) '0' ++ ds.map Char.toLower).length
        = 64 := by
    rw [List.length_append, List.length_replicate]
    omega
  have hall_out :
      (List.replicate (64 - (ds.map Char.toLower).length) '0' ++ ds.map Char.toLower).all
        is_lower_hex_digit = true := by
    rw [List.all_append, replicate_zero_all_lower, hm_all]
    rfl
  have hne_out :
      List.replicate (64 - (ds.map Char.toLower).length) '0' ++ ds.map Char.toLower ≠ [] := by
    intro h0
    rw [h0] at hlen_out
    simp at hlen_out
  refine ⟨_, hout, hlen_out, hall_out, ?_, ?_⟩
  · rw [hex_digits_value_replicate_zero]
    exact hex_digits_value_map_toLower ds hhex
  · have hstrip2 := py_strip_of_no_ws _
      (fun c hc => hex_not_whitespace (lower_hex_is_hex (List.all_eq_true.mp hall_out c hc)))
    have hmap2 := map_toLower_id_of_lower _ hall_out
    have hdrop2 := py_drop_0x_of_lower _ hall_out
    have hred := normalize_hex_32_reduces _ _
      (by rw [hstrip2, hmap2]; exact hdrop2) hne_out (by omega) hall_out
    rw [hred, hlen_out]
    simp

/-- Witness for the amended C10 at the concrete input `"0xAb"`. -/
theorem claim_C10_amended_witness :
    ((['0', 'x'] : List Char) = [] ∨ (['0', 'x'] : List Char) = ['0', 'x']) ∧
    (['A', 'b'] : List Char) ≠ [] ∧ (['A', 'b'] : List Char).length ≤ 64 ∧
      (['A', 'b'] : List Char).all is_hex_digit = true ∧
    (∃ out, normalize_hex_32 (['0', 'x'] ++ ['A', 'b']) = .ok out ∧
      out.length = 64 ∧ out.all is_lower_hex_digit = true ∧
      hex_digits_value out = hex_digits_value ['A', 'b'] ∧
      normalize_hex_32 out = .ok out) :=
  ⟨Or.inr rfl, by decide, by decide, by decide,
   claim_C10_amended_normalizer ['A', 'b'] ['0', 'x'] (Or.inr rfl)
     (by decide) (by decide) (by decide)⟩
